import Mathlib

/-!
Verification of the incremental Telegram-message harvesting core
(`src/telegram_scraper.py`, `src/openai_processor.py`) against its
natural-language specification.

Strings are modelled as `List Char`; Python `int` as `Int`; the CSV store as a
list of rows whose cells are `List Char`; Python dict values as `PyVal`.
File I/O outcomes and HTTP outcomes are passed in explicitly so that the
exception-handling structure of the code can be embedded faithfully.
-/

namespace TrackUA

/-- The characters Python's `str.strip()` removes (ASCII whitespace:
space, tab, newline, carriage return, vertical tab, form feed). -/
def isPySpace (c : Char) : Bool :=
  c.toNat = 32 || c.toNat = 9 || c.toNat = 10 || c.toNat = 13 || c.toNat = 11 || c.toNat = 12

/-- Model of Python `str.strip()`: drop leading and trailing whitespace. -/
def pyStrip (s : List Char) : List Char :=
  ((s.dropWhile isPySpace).reverse.dropWhile isPySpace).reverse

/-- Model of Python `str.startswith(p)`. -/
def hasPre : List Char → List Char → Bool
  | [], _ => true
  | _ :: _, [] => false
  | p :: ps, c :: cs => p = c && hasPre ps cs

/-- Model of Python `str.endswith(p)`. -/
def hasSuf (p s : List Char) : Bool :=
  hasPre p.reverse s.reverse

/-- Model of Python `p in s` (literal substring containment). -/
def containsSub (p : List Char) : List Char → Bool
  | [] => hasPre p []
  | c :: rest => hasPre p (c :: rest) || containsSub p rest

/-- The open-brace character, `\x7b`. -/
def obr : Char := Char.ofNat 123

/-- The close-brace character, `\x7d`. -/
def cbr : Char := Char.ofNat 125

/-- The backtick character. -/
def tick : Char := Char.ofNat 96

/-- Model of Python `s.split('\n')`. -/
def splitLines : List Char → List (List Char)
  | [] => [[]]
  | c :: rest =>
    let r := splitLines rest
    if c = '\n' then [] :: r
    else
      match r with
      | [] => [[c]]
      | h :: t => (c :: h) :: t

/-- Model of Python joining lines with a newline separator. -/
def joinLines (ls : List (List Char)) : List Char :=
  List.intercalate ['\n'] ls

/-- Digit character for a digit value (values `≥ 9` all map to `'9'`;
only used with values `< 10`). -/
def digCharOf (d : Nat) : Char :=
  match d with
  | 0 => '0' | 1 => '1' | 2 => '2' | 3 => '3' | 4 => '4'
  | 5 => '5' | 6 => '6' | 7 => '7' | 8 => '8' | _ => '9'

/-- Is `c` an ASCII digit? -/
def isDigitCh (c : Char) : Bool :=
  48 ≤ c.toNat && c.toNat ≤ 57

/-- Numeric value of an ASCII digit character. -/
def digVal (c : Char) : Nat := c.toNat - 48

/-- Parse a nonempty all-digit string into a natural number. -/
def parseDigits (s : List Char) : Option Nat :=
  if !s.isEmpty && s.all isDigitCh then
    some (s.foldl (fun a c => a * 10 + digVal c) 0)
  else none

/-- Decimal digits of `n`, most significant first, structurally via fuel. -/
def natDigits : Nat → Nat → List Char
  | 0, _ => []
  | fuel + 1, n =>
    if n < 10 then [digCharOf n]
    else natDigits fuel (n / 10) ++ [digCharOf (n % 10)]

/-- Model of Python `str(n)` for a nonnegative integer. -/
def pyStrNat (n : Nat) : List Char := natDigits (n + 1) n

/-- Model of Python `str(i)` for an integer. -/
def pyStrInt (i : Int) : List Char :=
  if i < 0 then '-' :: pyStrNat i.natAbs else pyStrNat i.toNat

/-- Sign handling of Python `int(s)` after stripping. -/
def pyIntCore : List Char → Option Int
  | [] => none
  | c :: r =>
    if c = '-' then (parseDigits r).map (fun n => -(n : Int))
    else if c = '+' then (parseDigits r).map (fun n => (n : Int))
    else (parseDigits (c :: r)).map (fun n => (n : Int))

/-- Model of Python `int(s)`: strip whitespace, optional sign, digits;
`none` models a raised `ValueError`. -/
def pyInt (s : List Char) : Option Int :=
  pyIntCore (pyStrip s)

/-! ### Round-trip lemmas for the integer model -/

theorem digVal_digCharOf {d : Nat} (h : d < 10) : digVal (digCharOf d) = d := by
  interval_cases d <;> decide

theorem isDigitCh_digCharOf {d : Nat} (h : d < 10) : isDigitCh (digCharOf d) = true := by
  interval_cases d <;> decide

theorem natDigits_fuel {f1 f2 n : Nat} (h1 : n < f1) (h2 : n < f2) :
    natDigits f1 n = natDigits f2 n := by
  induction f1 generalizing f2 n with
  | zero => omega
  | succ f ih =>
    cases f2 with
    | zero => omega
    | succ g =>
      simp only [natDigits]
      by_cases hn : n < 10
      · simp [hn]
      · have hd : n / 10 < f := by omega
        have hd2 : n / 10 < g := by omega
        simp [hn, ih hd hd2]

theorem natDigits_ne_nil {f n : Nat} (h : n < f) : natDigits f n ≠ [] := by
  cases f with
  | zero => omega
  | succ g =>
    simp only [natDigits]
    by_cases hn : n < 10 <;> simp [hn]

theorem natDigits_all_digits {f n : Nat} : ∀ c ∈ natDigits f n, isDigitCh c = true := by
  induction f generalizing n with
  | zero => simp [natDigits]
  | succ g ih =>
    intro c hc
    simp only [natDigits] at hc
    by_cases hn : n < 10
    · simp [hn] at hc
      subst hc
      exact isDigitCh_digCharOf hn
    · simp [hn, List.mem_append] at hc
      rcases hc with hc | hc
      · exact ih c hc
      · subst hc
        exact isDigitCh_digCharOf (by omega)

theorem foldl_digits_append (L : List Char) (c : Char) (a : Nat) :
    (L ++ [c]).foldl (fun a c => a * 10 + digVal c) a
      = (L.foldl (fun a c => a * 10 + digVal c) a) * 10 + digVal c := by
  simp [List.foldl_append]

theorem parseDigits_natDigits {f n : Nat} (h : n < f) :
    parseDigits (natDigits f n) = some n := by
  induction n using Nat.strong_induction_on generalizing f with
  | _ n ih =>
    have hf : natDigits f n = natDigits (n + 1) n := natDigits_fuel h (Nat.lt_succ_self n)
    rw [hf]
    by_cases hn : n < 10
    · simp only [pyStrNat, natDigits, hn, if_pos]
      simp [parseDigits, isDigitCh_digCharOf hn, digVal_digCharOf hn, List.all_cons]
    · have hstep : natDigits (n + 1) n = natDigits n (n / 10) ++ [digCharOf (n % 10)] := by
        simp [natDigits, hn]
      have hdlt : n / 10 < n := Nat.div_lt_self (by omega) (by omega)
      have hrec : parseDigits (natDigits n (n / 10)) = some (n / 10) :=
        ih (n / 10) hdlt hdlt
      rw [hstep]
      have hne : ¬ (natDigits n (n / 10)).isEmpty = true := by
        have := natDigits_ne_nil hdlt
        simpa [List.isEmpty_iff] using this
      have hall : (natDigits n (n / 10)).all isDigitCh = true := by
        simp only [List.all_eq_true]
        exact fun c hc => natDigits_all_digits c hc
      have hfold : (natDigits n (n / 10)).foldl (fun a c => a * 10 + digVal c) 0 = n / 10 := by
        simp only [parseDigits, hne, hall, Bool.not_false, Bool.and_self] at hrec
        simpa using hrec
      have hall2 : (natDigits n (n / 10) ++ [digCharOf (n % 10)]).all isDigitCh = true := by
        rw [List.all_append]
        simp [hall, List.all_cons, isDigitCh_digCharOf (show n % 10 < 10 by omega)]
      have hne2 : ¬ (natDigits n (n / 10) ++ [digCharOf (n % 10)]).isEmpty = true := by
        simp
      simp only [parseDigits, hne2, hall2, Bool.not_false, Bool.and_self, if_pos]
      rw [foldl_digits_append, hfold, digVal_digCharOf (show n % 10 < 10 by omega)]
      congr 1
      omega

theorem parseDigits_pyStrNat (n : Nat) : parseDigits (pyStrNat n) = some n :=
  parseDigits_natDigits (Nat.lt_succ_self n)

theorem pyStrNat_ne_nil (n : Nat) : pyStrNat n ≠ [] :=
  natDigits_ne_nil (Nat.lt_succ_self n)

theorem pyStrNat_all_digits (n : Nat) : ∀ c ∈ pyStrNat n, isDigitCh c = true :=
  fun c hc => natDigits_all_digits c hc

theorem isPySpace_of_digit {c : Char} (h : isDigitCh c = true) : isPySpace c = false := by
  simp only [isDigitCh, Bool.and_eq_true, decide_eq_true_eq] at h
  simp only [isPySpace, Bool.or_eq_false_iff, decide_eq_false_iff_not]
  omega

theorem dropWhile_eq_self_of_all {p : Char → Bool} {s : List Char}
    (h : ∀ c ∈ s, p c = false) : s.dropWhile p = s := by
  cases s with
  | nil => rfl
  | cons c t =>
    have hc := h c (List.mem_cons_self c t)
    simp [List.dropWhile, hc]

theorem pyStrip_eq_self_of_all {s : List Char}
    (h : ∀ c ∈ s, isPySpace c = false) : pyStrip s = s := by
  unfold pyStrip
  rw [dropWhile_eq_self_of_all h, dropWhile_eq_self_of_all (by
    intro c hc
    exact h c (List.mem_reverse.mp hc)), List.reverse_reverse]

theorem pyStrip_pyStrNat (n : Nat) : pyStrip (pyStrNat n) = pyStrNat n :=
  pyStrip_eq_self_of_all fun c hc => isPySpace_of_digit (pyStrNat_all_digits n c hc)

theorem digit_ne_sign {c : Char} (h : isDigitCh c = true) : c ≠ '-' ∧ c ≠ '+' := by
  simp only [isDigitCh, Bool.and_eq_true, decide_eq_true_eq] at h
  have h45 : ('-' : Char).toNat = 45 := by decide
  have h43 : ('+' : Char).toNat = 43 := by decide
  constructor
  · intro hc; rw [hc, h45] at h; omega
  · intro hc; rw [hc, h43] at h; omega

/-- Python round-trip: `int(str(i)) = i`. -/
theorem pyInt_pyStrInt (i : Int) : pyInt (pyStrInt i) = some i := by
  unfold pyStrInt
  by_cases hneg : i < 0
  · simp only [hneg, if_pos]
    have hstrip : pyStrip ('-' :: pyStrNat i.natAbs) = '-' :: pyStrNat i.natAbs := by
      apply pyStrip_eq_self_of_all
      intro c hc
      rcases List.mem_cons.mp hc with hc | hc
      · subst hc; decide
      · exact isPySpace_of_digit (pyStrNat_all_digits _ c hc)
    have habs : (i.natAbs : Int) = -i := by omega
    simp [pyInt, hstrip, pyIntCore, parseDigits_pyStrNat, habs]
  · rw [if_neg hneg]
    obtain ⟨c, t, hct⟩ : ∃ c t, pyStrNat i.toNat = c :: t := by
      cases hs : pyStrNat i.toNat with
      | nil => exact absurd hs (pyStrNat_ne_nil _)
      | cons c t => exact ⟨c, t, rfl⟩
    have hcd : isDigitCh c = true := by
      apply pyStrNat_all_digits
      rw [hct]; exact List.mem_cons_self c t
    have hsigns := digit_ne_sign hcd
    have hs2 : pyStrip (pyStrNat i.toNat) = c :: t := by rw [pyStrip_pyStrNat, hct]
    simp only [pyInt, hs2, pyIntCore]
    rw [if_neg hsigns.1, if_neg hsigns.2, ← hct, parseDigits_pyStrNat]
    have habs : ((i.toNat : Nat) : Int) = i := by omega
    simp [habs]

theorem pyStrInt_ne_nil (i : Int) : pyStrInt i ≠ [] := by
  unfold pyStrInt
  by_cases hneg : i < 0
  · simp [hneg]
  · simp only [hneg, ite_false]
    exact pyStrNat_ne_nil _

/-!
### Analyzer Client (`src/openai_processor.py`, `OpenAIProcessor.process_message`)

The JSON library parser (`json.loads`) is an external library; it is taken as
a parameter `p : List Char → Option α` (`none` models a raised
`JSONDecodeError`).  Everything else follows the source line by line.
-/

/-- The literal sentinel text checked at line 88 of `openai_processor.py`. -/
def nullSentinel : List Char := "NULL".toList

/-- The fence marker of three backticks. -/
def fenceMark : List Char := [tick, tick, tick]

/-- The fence marker with a `json` language tag (7 characters). -/
def fenceJsonMark : List Char := fenceMark ++ "json".toList

/-- First index of `c` in `s` (Python `str.find`, `none` for `-1`). -/
def firstIdx (c : Char) : List Char → Option Nat
  | [] => none
  | x :: xs => if x = c then some 0 else (firstIdx c xs).map (· + 1)

/-- Last index of `c` in `s` (Python `str.rfind`, `none` for `-1`). -/
def lastIdx (c : Char) (s : List Char) : Option Nat :=
  (firstIdx c s.reverse).map (fun k => s.length - 1 - k)

/-- Lines 106-111: locate the first `\x7b` and the last `\x7d` and keep only
that span when both exist and the end is strictly after the start. -/
def spanSlice (s : List Char) : List Char :=
  match firstIdx obr s, lastIdx cbr s with
  | some i, some j => if i < j then (s.drop i).take (j + 1 - i) else s
  | _, _ => s

/-- Lines 92-111: strip the response, remove markdown code fences,
strip again, and keep the first-`\x7b`-to-last-`\x7d` span. -/
def cleanSpan (raw : List Char) : List Char :=
  let content := pyStrip raw
  let c1 :=
    if hasPre fenceJsonMark content then content.drop 7
    else if hasPre fenceMark content then content.drop 3
    else content
  let c2 := if hasSuf fenceMark c1 then c1.take (c1.length - 3) else c1
  spanSlice (pyStrip c2)

/-- Lines 126-141: accumulate lines starting from the first line whose
stripped form starts with `\x7b`, keeping a running brace count, and stop
once the count returns to zero. -/
def braceScan (cnt : Int) (started : Bool) : List (List Char) → List (List Char)
  | [] => []
  | line :: rest =>
    let started2 := started || hasPre [obr] (pyStrip line)
    if started2 then
      let cnt2 := cnt + (line.count obr : Int) - (line.count cbr : Int)
      if cnt2 = 0 then [line]
      else line :: braceScan cnt2 started2 rest
    else braceScan cnt started2 rest

/-- Lines 124-152: the manual last-resort extraction applied to the cleaned
content after the primary parse failed. -/
def manualScan (p : List Char → Option α) (content : List Char) : Option α :=
  let jl := braceScan 0 false (splitLines content)
  if jl.isEmpty then none
  else
    match p (joinLines jl) with
    | some j => some j
    | none => none

/-- Lines 82-152: response-content normalization of a status-200 body.
`p` models `json.loads`. -/
def parseResponse (p : List Char → Option α) (raw : List Char) : Option α :=
  if pyStrip raw = nullSentinel then none
  else
    match p (cleanSpan raw) with
    | some j => some j
    | none => manualScan p (cleanSpan raw)

/-- Python exceptions relevant to `process_message`. -/
inductive PyExc where
  | clientError : List Char → PyExc
  | timeoutError : PyExc
deriving DecidableEq, Repr

/-- One attempt's transport-level outcome, supplied by the environment:
the HTTP POST either raises, times out, or yields a status and a body. -/
inductive HttpOutcome where
  | connError : List Char → HttpOutcome
  | timeout : HttpOutcome
  | response : Nat → List Char → HttpOutcome
deriving DecidableEq, Repr

/-- The exception classes listed in the `backoff.on_exception` decorator
(`aiohttp.ClientError`, `asyncio.TimeoutError`): both constructors of
`PyExc` are retryable. -/
def retryable : PyExc → Bool
  | .clientError _ => true
  | .timeoutError => true

/-- The body of the `try:` block of `process_message` (lines 46-163):
what it would return or raise, before the `except Exception` handler. -/
def processAttemptBody (p : List Char → Option α) : HttpOutcome → Except PyExc (Option α)
  | .connError s => .error (.clientError s)
  | .timeout => .error .timeoutError
  | .response 200 content => .ok (parseResponse p content)
  | .response 429 etext => .error (.clientError ("Rate limited: ".toList ++ etext))
  | .response _ _ => .ok none

/-- One call of `process_message` as actually executed: the blanket
`except Exception as e: ... return None` (lines 165-167) catches every
exception raised inside the body, including the rate-limit `raise` at
line 158, and returns `None`. -/
def processMessage (p : List Char → Option α) (o : HttpOutcome) : Except PyExc (Option α) :=
  match processAttemptBody p o with
  | .ok v => .ok v
  | .error _ => .ok none

/-- The `backoff.on_exception` wrapper around `process_message`: retry while
the wrapped call raises a retryable exception and attempts remain.  The
environment supplies one `HttpOutcome` per attempt. -/
def backoffRetry (p : List Char → Option α) : List HttpOutcome → Except PyExc (Option α)
  | [] => .ok none
  | [o] => processMessage p o
  | o :: o2 :: rest =>
    match processMessage p o with
    | .error e => if retryable e then backoffRetry p (o2 :: rest) else .error e
    | .ok v => .ok v

/-- Is an `Except` value a normal return? -/
def exceptOk : Except PyExc (Option α) → Bool
  | .ok _ => true
  | .error _ => false

/-!
### Record Store and scraper (`src/telegram_scraper.py`)

A CSV row is seventeen string cells in the fixed schema of
`_get_csv_fieldnames`; a message dict is the corresponding Python dict whose
values may be strings, ints, bools or `None` (`PyVal`).
-/

/-- A Python value as it occurs in the message dicts of the scraper. -/
inductive PyVal where
  | none : PyVal
  | str : List Char → PyVal
  | int : Int → PyVal
  | bool : Bool → PyVal
deriving DecidableEq, Repr

/-- Model of Python `str(v)` on the values above. -/
def pyStrOf : PyVal → List Char
  | .none => "None".toList
  | .str s => s
  | .int i => pyStrInt i
  | .bool true => "True".toList
  | .bool false => "False".toList

/-- How `csv.DictWriter` renders a value into a cell: `None` becomes the
empty cell, everything else its `str()`. -/
def csvStr : PyVal → List Char
  | .none => []
  | v => pyStrOf v

/-- One persisted CSV row (after the header), one cell per field of
`_get_csv_fieldnames`. -/
structure CsvRow where
  channel_username : List Char
  channel_title : List Char
  channel_id : List Char
  message_id : List Char
  date : List Char
  message_text : List Char
  views : List Char
  forwards : List Char
  replies : List Char
  edit_date : List Char
  grouped_id : List Char
  from_id : List Char
  post_author : List Char
  openai_analysis : List Char
  openai_processed : List Char
  openai_error : List Char
  full_message_object : List Char
deriving DecidableEq, Repr

/-- A message dict with the seventeen keys used throughout the scraper. -/
structure MsgDict where
  channel_username : PyVal
  channel_title : PyVal
  channel_id : PyVal
  message_id : PyVal
  date : PyVal
  message_text : PyVal
  views : PyVal
  forwards : PyVal
  replies : PyVal
  edit_date : PyVal
  grouped_id : PyVal
  from_id : PyVal
  post_author : PyVal
  openai_analysis : PyVal
  openai_processed : PyVal
  openai_error : PyVal
  full_message_object : PyVal
deriving DecidableEq, Repr

/-- `csv.DictWriter.writerow` on a message dict: every value rendered
into its cell. -/
def toCsvRow (d : MsgDict) : CsvRow where
  channel_username := csvStr d.channel_username
  channel_title := csvStr d.channel_title
  channel_id := csvStr d.channel_id
  message_id := csvStr d.message_id
  date := csvStr d.date
  message_text := csvStr d.message_text
  views := csvStr d.views
  forwards := csvStr d.forwards
  replies := csvStr d.replies
  edit_date := csvStr d.edit_date
  grouped_id := csvStr d.grouped_id
  from_id := csvStr d.from_id
  post_author := csvStr d.post_author
  openai_analysis := csvStr d.openai_analysis
  openai_processed := csvStr d.openai_processed
  openai_error := csvStr d.openai_error
  full_message_object := csvStr d.full_message_object

/-- Line 58-59: `row.get('openai_processed', '').lower() in ['true', '1', 'yes']`. -/
def processedDone (s : List Char) : Bool :=
  let l := s.map Char.toLower
  l = "true".toList || l = "1".toList || l = "yes".toList

/-- `int(row.get(f, 0)) if row.get(f) else None` for the numeric columns of
`_load_existing_csv`: an empty cell gives `None`; a nonempty cell is
converted, and a conversion failure (`ValueError`) is the outer `none`. -/
def intField (s : List Char) : Option PyVal :=
  if s.isEmpty then some .none else (pyInt s).map PyVal.int

/-- Lines 61-79: the worklist dict built from a stored row that still needs
enrichment (note `grouped_id` stays a string, and the three enrichment
fields are reset to pending). -/
def mkLoadedDict (r : CsvRow) (mid : Int) (cid v f rp fi : PyVal) : MsgDict where
  channel_username := .str r.channel_username
  channel_title := .str r.channel_title
  channel_id := cid
  message_id := .int mid
  date := .str r.date
  message_text := .str r.message_text
  views := v
  forwards := f
  replies := rp
  edit_date := .str r.edit_date
  grouped_id := .str r.grouped_id
  from_id := fi
  post_author := .str r.post_author
  full_message_object := .str r.full_message_object
  openai_analysis := .none
  openai_processed := .bool false
  openai_error := .none

/-- One iteration of the row loop of `_load_existing_csv` (lines 51-81):
a falsy or unparsable `message_id` skips the row entirely; a parsed id is
added to the set; a row whose `openai_processed` is not truthy is appended
to the worklist unless one of its numeric cells raises `ValueError`
(in which case the `continue` at line 81 keeps the id but drops the entry). -/
def loadRowStep (st : Finset Int × List MsgDict) (r : CsvRow) : Finset Int × List MsgDict :=
  if r.message_id.isEmpty then st
  else
    match pyInt r.message_id with
    | Option.none => st
    | some mid =>
      let ids := insert mid st.1
      if processedDone r.openai_processed then (ids, st.2)
      else
        match intField r.channel_id, intField r.views, intField r.forwards,
              intField r.replies, intField r.from_id with
        | some cid, some v, some f, some rp, some fi =>
          (ids, st.2 ++ [mkLoadedDict r mid cid v f rp fi])
        | _, _, _, _, _ => (ids, st.2)

/-- `_load_existing_csv`: returns `(processed_ids, unprocessed_messages)`. -/
def loadExistingCsv (rows : List CsvRow) : Finset Int × List MsgDict :=
  rows.foldl loadRowStep (∅, [])

/-- The integer ids the loader would extract, one per parsable row, in
store order. -/
def storeIdsL (rows : List CsvRow) : List Int :=
  rows.filterMap fun r =>
    if r.message_id.isEmpty then Option.none else pyInt r.message_id

/-- Outcome of one file-append attempt, supplied by the environment. -/
inductive WOutcome where
  | ok : WOutcome
  | ioError : WOutcome
deriving DecidableEq, Repr

/-- The `with open ... writer.writerow` body of `_append_to_csv`
(lines 103-105): it either appends the rendered row or raises. -/
def appendToCsvBody (o : WOutcome) (rows : List CsvRow) (d : MsgDict) :
    Except PyExc (List CsvRow) :=
  match o with
  | .ok => .ok (rows ++ [toCsvRow d])
  | .ioError => .error (.clientError "io".toList)

/-- `_append_to_csv` as executed: the `except Exception` handler
(lines 107-108) logs and returns normally, leaving the store unchanged
when the write raised. -/
def appendToCsv (o : WOutcome) (rows : List CsvRow) (d : MsgDict) : List CsvRow :=
  match appendToCsvBody o rows d with
  | .ok r => r
  | .error _ => rows

/-- Replace the first row whose `message_id` cell equals `mid`
(lines 122-127: the loop breaks after the first match). -/
def replFirst (mid : List Char) (newRow : CsvRow) : List CsvRow → List CsvRow
  | [] => []
  | r :: rest =>
    if r.message_id = mid then newRow :: rest
    else r :: replFirst mid newRow rest

/-- `_update_message_in_csv` (lines 110-138): read all rows, overwrite every
field of the first row matching `str(updated_message['message_id'])`, and
rewrite the whole file; with no match the rewritten rows are unchanged.
The surrounding `try`/`except` logs and returns normally in every case. -/
def updateMessageInCsv (rows : List CsvRow) (upd : MsgDict) : List CsvRow :=
  replFirst (pyStrOf upd.message_id) (toCsvRow upd) rows

/-- Severity of a log record emitted by the scraper. -/
inductive LogLevel where
  | debugL : LogLevel
  | infoL : LogLevel
  | errorL : LogLevel
deriving DecidableEq, Repr

/-- Is a log entry error-level? -/
def isErrorLog (e : LogLevel × List Char) : Bool :=
  e.1 = LogLevel.errorL

/-- `_update_message_in_csv` together with the log records it emits when the
underlying file operations succeed: the read-patch-rewrite completes and the
only log record is the debug-level success message of line 135 —
`logger.error` (line 138) fires only when an exception was raised, never on
a mere miss. -/
def updateMessageInCsvRun (rows : List CsvRow) (upd : MsgDict) :
    List CsvRow × List (LogLevel × List Char) :=
  (replFirst (pyStrOf upd.message_id) (toCsvRow upd) rows,
   [(LogLevel.debugL,
     "Updated message ".toList ++ (pyStrOf upd.message_id ++ " in CSV".toList))])

/-!
### Source Feed messages and the two collection loops
-/

/-- The channel entity fields read by the scraper. -/
structure Chan where
  username : Option (List Char)
  title : List Char
  id : Int
deriving DecidableEq, Repr

/-- The fields of a Telethon message the scraper reads (lines 192-206):
`text` is `none` when the message has no text. -/
structure Msg where
  id : Int
  text : Option (List Char)
  dateIso : Option (List Char)
  views : Option Int
  forwards : Option Int
  replies : Option Int
  editDateIso : Option (List Char)
  groupedId : Option Int
  fromId : Option Int
  postAuthor : Option (List Char)
  fullObj : List Char
deriving DecidableEq, Repr

/-- Inject an optional string as a Python value. -/
def ovStr : Option (List Char) → PyVal
  | Option.none => .none
  | some s => .str s

/-- Inject an optional int as a Python value. -/
def ovInt : Option Int → PyVal
  | Option.none => .none
  | some i => .int i

/-- Line 181 / 340: `if message.text and search_phrase in message.text`. -/
def qualifies (phrase : List Char) (m : Msg) : Bool :=
  match m.text with
  | Option.none => false
  | some t => !t.isEmpty && containsSub phrase t

/-- The freshly collected message dict (lines 192-211 and 351-370):
enrichment fields pending. -/
def mkMessageData (chan : Chan) (m : Msg) : MsgDict where
  channel_username := ovStr chan.username
  channel_title := .str chan.title
  channel_id := .int chan.id
  message_id := .int m.id
  date := ovStr m.dateIso
  message_text := ovStr m.text
  views := ovInt m.views
  forwards := ovInt m.forwards
  replies := ovInt m.replies
  edit_date := ovStr m.editDateIso
  grouped_id := ovInt m.groupedId
  from_id := ovInt m.fromId
  post_author := ovStr m.postAuthor
  full_message_object := .str m.fullObj
  openai_analysis := .none
  openai_processed := .bool false
  openai_error := .none

/-- Outcome of one `processor.process_message` call as observed by the
scraper: a returned value (`some` = the dumped analysis, `none` = the
`None` return) or a raised exception with its `str(e)`. -/
inductive ProcOutcome where
  | res : Option (List Char) → ProcOutcome
  | exc : List Char → ProcOutcome
deriving DecidableEq, Repr

/-- The fixed diagnostic written when the processor returns `None`. -/
def failMsg : List Char := "Failed to process or returned NULL".toList

/-- Writing an enrichment outcome into a message dict.  This one mapping is
shared verbatim by `_process_single_message_with_openai` (lines 405-426) and
by `process_single_message` inside
`process_unprocessed_messages_with_openai` (lines 257-291). -/
def applyOutcome (d : MsgDict) (o : ProcOutcome) : MsgDict :=
  match o with
  | .res (some j) =>
    { d with openai_analysis := .str j, openai_processed := .bool true,
             openai_error := .none }
  | .res Option.none =>
    { d with openai_analysis := .none, openai_processed := .bool false,
             openai_error := .str failMsg }
  | .exc e =>
    { d with openai_analysis := .none, openai_processed := .bool false,
             openai_error := .str e }

/-- Observable store events, for the ordering claims. -/
inductive Ev where
  | procCall : Int → Ev
  | append : Int → Ev
deriving DecidableEq, Repr

/-- State of the hybrid (phase-1) collection loop. -/
structure HState where
  rows : List CsvRow
  ids : Finset Int
  written : List MsgDict
  outs : List WOutcome
deriving DecidableEq

/-- One feed message in `scrape_messages_hybrid` (lines 180-219): qualifying
messages already in the id set are skipped; new ones are rendered, appended,
and their id added to the in-memory set even if the append's write failed. -/
def hybridStep (phrase : List Char) (chan : Chan) (st : HState) (m : Msg) : HState :=
  if qualifies phrase m then
    if m.id ∈ st.ids then st
    else
      let d := mkMessageData chan m
      { rows := appendToCsv (st.outs.headD .ok) st.rows d
        ids := insert m.id st.ids
        written := st.written ++ [d]
        outs := st.outs.tail }
  else st

/-- `scrape_messages_hybrid` over a finite feed: load the known ids
(line 167), then run the collection loop.  `outs` supplies one write outcome
per append attempt (an exhausted list means every write succeeds). -/
def scrapeMessagesHybrid (phrase : List Char) (chan : Chan) (feed : List Msg)
    (rows : List CsvRow) (outs : List WOutcome) : HState :=
  feed.foldl (hybridStep phrase chan)
    { rows := rows, ids := (loadExistingCsv rows).1, written := [], outs := outs }

/-- State of the incremental loop, with its event trace. -/
structure IState where
  rows : List CsvRow
  ids : Finset Int
  written : List MsgDict
  events : List Ev
  procOuts : List ProcOutcome
  outs : List WOutcome
deriving DecidableEq

/-- One feed message in `scrape_messages_incremental` (lines 339-387):
a qualifying new message is enriched first
(`_process_single_message_with_openai`, line 374) and only then appended
(line 377), as one write carrying the enrichment outcome. -/
def incrementalStep (phrase : List Char) (chan : Chan) (st : IState) (m : Msg) : IState :=
  if qualifies phrase m then
    if m.id ∈ st.ids then st
    else
      let d := mkMessageData chan m
      let d2 := applyOutcome d (st.procOuts.headD (.res Option.none))
      { rows := appendToCsv (st.outs.headD .ok) st.rows d2
        ids := insert m.id st.ids
        written := st.written ++ [d2]
        events := st.events ++ [.procCall m.id, .append m.id]
        procOuts := st.procOuts.tail
        outs := st.outs.tail }
  else st

/-- `scrape_messages_incremental` over a finite feed. -/
def scrapeMessagesIncremental (phrase : List Char) (chan : Chan) (feed : List Msg)
    (rows : List CsvRow) (procOuts : List ProcOutcome) (outs : List WOutcome) : IState :=
  feed.foldl (incrementalStep phrase chan)
    { rows := rows, ids := (loadExistingCsv rows).1, written := [],
      events := [], procOuts := procOuts, outs := outs }

/-- The records written back by phase 2
(`process_unprocessed_messages_with_openai`): each worklist entry is updated
with its enrichment outcome and passed to `_update_message_in_csv`
(lines 266-291), one write per entry. -/
def phase2Writes (wl : List MsgDict) (procOuts : List ProcOutcome) : List MsgDict :=
  List.zipWith applyOutcome wl procOuts

/-!
### The enrichment scheduler's admission gate
(`asyncio.Semaphore(Config.MAX_CONCURRENT_REQUESTS)`, lines 250-259)

Each worklist task runs `async with semaphore: sleep; call; update`.  The
cooperative interleaving is a transition system over the per-task program
counters; `asyncio.Semaphore(n)` admits a waiting task only while the
number of tasks inside the `async with` block is below `n`.
-/

/-- Program counter of one scheduled task. -/
inductive TPc where
  | waiting : TPc
  | delaying : TPc
  | calling : TPc
  | finished : TPc
deriving DecidableEq, Repr

/-- Is the task inside the `async with semaphore` block? -/
def occupied : TPc → Bool
  | .delaying => true
  | .calling => true
  | _ => false

/-- Number of tasks currently holding the semaphore. -/
def heldCount (s : List TPc) : Nat :=
  s.countP occupied

/-- Number of in-flight Analyzer Client calls. -/
def inflightCount (s : List TPc) : Nat :=
  s.countP fun p => p = .calling

/-- Interleaving semantics of the scheduler with concurrency limit `n`:
a waiting task may acquire only while fewer than `n` tasks hold the
semaphore; a delaying task finishes its pacing sleep and issues its call;
a calling task completes, writes back and releases. -/
inductive SemStep (n : Nat) : List TPc → List TPc → Prop where
  | acquire (pre post : List TPc) :
      heldCount (pre ++ .waiting :: post) < n →
      SemStep n (pre ++ .waiting :: post) (pre ++ .delaying :: post)
  | startCall (pre post : List TPc) :
      SemStep n (pre ++ .delaying :: post) (pre ++ .calling :: post)
  | finish (pre post : List TPc) :
      SemStep n (pre ++ .calling :: post) (pre ++ .finished :: post)

/-- Scheduler states reachable from all tasks waiting. -/
def SemReach (n k : Nat) (s : List TPc) : Prop :=
  Relation.ReflTransGen (SemStep n) (List.replicate k .waiting) s

/-!
## Theorems
-/

theorem processMessage_isOk (p : List Char → Option α) (o : HttpOutcome) :
    exceptOk (processMessage p o) = true := by
  unfold processMessage
  cases processAttemptBody p o <;> rfl

theorem backoffRetry_isOk (p : List Char → Option α) :
    ∀ outs, exceptOk (backoffRetry p outs) = true
  | [] => rfl
  | [o] => processMessage_isOk p o
  | o :: o2 :: rest => by
    simp only [backoffRetry]
    cases h : processMessage p o with
    | ok v => rfl
    | error e =>
      have hok := processMessage_isOk p o
      rw [h] at hok
      simp [exceptOk] at hok

/-- C3: the spec says that once the retry bounds on transient transport
failures are exceeded, `process_message` surfaces the error to the caller
rather than returning `None`.  In the code the blanket
`except Exception: return None` (lines 165-167) sits inside the function
that the `backoff` decorator wraps, so the rate-limit `raise` at line 158
and every transport exception are swallowed before the decorator can see
them: the call never raises, is never retried, and returns `None` on the
first transient failure. -/
theorem claim3_retry_exhaustion_never_raises (α : Type) (p : List Char → Option α)
    (outs : List HttpOutcome) (o : HttpOutcome) (etext : List Char) :
    exceptOk (processMessage p o) = true ∧
    exceptOk (backoffRetry p outs) = true ∧
    backoffRetry p [HttpOutcome.response 429 etext] = Except.ok Option.none ∧
    backoffRetry p [HttpOutcome.connError etext, HttpOutcome.connError etext,
      HttpOutcome.connError etext] = Except.ok Option.none := by
  refine ⟨processMessage_isOk p o, backoffRetry_isOk p outs, rfl, rfl⟩

/-- Updating a record whose `message_id` is absent from the store rewrites
every row unchanged. -/
theorem updateMessageInCsv_miss_noop (rows : List CsvRow) (upd : MsgDict)
    (h : ∀ r ∈ rows, r.message_id ≠ pyStrOf upd.message_id) :
    updateMessageInCsv rows upd = rows := by
  unfold updateMessageInCsv
  induction rows with
  | nil => rfl
  | cons r rest ih =>
    have hr := h r (List.mem_cons_self r rest)
    simp only [replFirst, if_neg hr]
    rw [ih fun x hx => h x (List.mem_cons_of_mem r hx)]

/-- C6 amended: updating a record whose `message_id` is absent from the
store leaves every row unchanged and returns normally, but it does not log
an error: the call emits exactly the one debug-level
`Updated message ... in CSV` record of line 135, and no error-level record
at all (`logger.error` fires only when an exception is raised). -/
theorem claim6_amended_update_miss (rows : List CsvRow) (upd : MsgDict)
    (h : ∀ r ∈ rows, r.message_id ≠ pyStrOf upd.message_id) :
    (updateMessageInCsvRun rows upd).1 = rows ∧
    (updateMessageInCsvRun rows upd).2
      = [(LogLevel.debugL,
          "Updated message ".toList ++ (pyStrOf upd.message_id ++ " in CSV".toList))] ∧
    (updateMessageInCsvRun rows upd).2.filter isErrorLog = [] := by
  refine ⟨?_, rfl, rfl⟩
  show updateMessageInCsv rows upd = rows
  exact updateMessageInCsv_miss_noop rows upd h

/-- C9: `_append_to_csv` catches every exception of the underlying write and
returns normally; in the collection loop the message id is added to the
in-memory set even when the write failed, so a second occurrence of the same
id in the same run is skipped and the row is never retried. -/
theorem claim9_append_failure_swallowed (rows : List CsvRow) (d : MsgDict)
    (phrase : List Char) (chan : Chan) (m : Msg)
    (h1 : qualifies phrase m = true) (h2 : m.id ∉ (loadExistingCsv rows).1) :
    appendToCsv WOutcome.ok rows d = rows ++ [toCsvRow d] ∧
    appendToCsv WOutcome.ioError rows d = rows ∧
    (scrapeMessagesHybrid phrase chan [m, m] rows [WOutcome.ioError]).rows = rows ∧
    m.id ∈ (scrapeMessagesHybrid phrase chan [m, m] rows [WOutcome.ioError]).ids ∧
    (scrapeMessagesHybrid phrase chan [m, m] rows [WOutcome.ioError]).written
      = [mkMessageData chan m] := by
  have hstep1 :
      hybridStep phrase chan
        { rows := rows, ids := (loadExistingCsv rows).1, written := [],
          outs := [WOutcome.ioError] } m
      = { rows := rows, ids := insert m.id (loadExistingCsv rows).1,
          written := [mkMessageData chan m], outs := [] } := by
    simp [hybridStep, h1, h2, appendToCsv, appendToCsvBody]
  have hstep2 :
      hybridStep phrase chan
        { rows := rows, ids := insert m.id (loadExistingCsv rows).1,
          written := [mkMessageData chan m], outs := [] } m
      = { rows := rows, ids := insert m.id (loadExistingCsv rows).1,
          written := [mkMessageData chan m], outs := [] } := by
    simp [hybridStep, h1, Finset.mem_insert_self]
  have hrun : scrapeMessagesHybrid phrase chan [m, m] rows [WOutcome.ioError]
      = { rows := rows, ids := insert m.id (loadExistingCsv rows).1,
          written := [mkMessageData chan m], outs := [] } := by
    simp only [scrapeMessagesHybrid, List.foldl_cons, List.foldl_nil, hstep1, hstep2]
  refine ⟨rfl, rfl, ?_, ?_, ?_⟩
  · rw [hrun]
  · rw [hrun]; exact Finset.mem_insert_self m.id _
  · rw [hrun]

theorem loadRowStep_skips_bad (st : Finset Int × List MsgDict) (bad : CsvRow)
    (hbad : bad.message_id = [] ∨ pyInt bad.message_id = Option.none) :
    loadRowStep st bad = st := by
  unfold loadRowStep
  rcases hbad with hb | hb
  · simp [hb]
  · by_cases he : bad.message_id.isEmpty
    · simp [he]
    · simp [he, hb]

/-- C10: a persisted row whose `message_id` cell is empty or unparsable
contributes nothing to `_load_existing_csv`'s output — neither to the
known-id set nor to the worklist — and a feed message whose id is not in
the loaded set is treated as new and appended. -/
theorem claim10_bad_id_rows_invisible (rows1 rows2 : List CsvRow) (bad : CsvRow)
    (phrase : List Char) (chan : Chan) (st : HState) (m : Msg)
    (hbad : bad.message_id = [] ∨ pyInt bad.message_id = Option.none)
    (hq : qualifies phrase m = true) (hnotin : m.id ∉ st.ids) (houts : st.outs = []) :
    loadExistingCsv (rows1 ++ bad :: rows2) = loadExistingCsv (rows1 ++ rows2) ∧
    (hybridStep phrase chan st m).rows = st.rows ++ [toCsvRow (mkMessageData chan m)] ∧
    (hybridStep phrase chan st m).ids = insert m.id st.ids := by
  refine ⟨?_, ?_, ?_⟩
  · unfold loadExistingCsv
    rw [List.foldl_append, List.foldl_append, List.foldl_cons,
      loadRowStep_skips_bad _ bad hbad]
  · simp [hybridStep, hq, hnotin, houts, appendToCsv, appendToCsvBody]
  · simp [hybridStep, hq, hnotin]

theorem countP_le_countP {p q : TPc → Bool} (h : ∀ x, p x = true → q x = true) :
    ∀ s : List TPc, s.countP p ≤ s.countP q := by
  intro s
  induction s with
  | nil => exact Nat.le_refl 0
  | cons a t ih =>
    rw [List.countP_cons, List.countP_cons]
    by_cases ha : p a = true
    · rw [if_pos ha, if_pos (h a ha)]
      exact Nat.add_le_add ih (Nat.le_refl 1)
    · rw [if_neg ha]
      have h2 : t.countP q + 0 ≤ t.countP q + (if q a = true then 1 else 0) :=
        Nat.add_le_add (Nat.le_refl _) (Nat.zero_le _)
      exact Nat.le_trans (Nat.add_le_add ih (Nat.le_refl 0)) h2

theorem heldCount_replicate_waiting (k : Nat) :
    heldCount (List.replicate k .waiting) = 0 := by
  induction k with
  | zero => rfl
  | succ n ih =>
    rw [List.replicate_succ]
    simp only [heldCount, List.countP_cons, occupied] at ih ⊢
    simp only [if_neg (by decide : ¬ (false = true))]
    simpa using ih

theorem heldCount_le_of_reach {n k : Nat} {s : List TPc} (h : SemReach n k s) :
    heldCount s ≤ n := by
  induction h with
  | refl => rw [heldCount_replicate_waiting]; exact Nat.zero_le n
  | tail _ hstep ih =>
    cases hstep with
    | acquire pre post hlt =>
      simp [heldCount, List.countP_append, List.countP_cons, occupied] at hlt ih ⊢
      omega
    | startCall pre post =>
      simp [heldCount, List.countP_append, List.countP_cons, occupied] at ih ⊢
      omega
    | finish pre post =>
      simp [heldCount, List.countP_append, List.countP_cons, occupied] at ih ⊢
      omega

/-- C8: in the enrichment scheduler every reachable interleaving keeps the
number of tasks holding the admission semaphore, and hence the number of
in-flight Analyzer Client calls, at or below the concurrency limit: a task
acquires only while fewer than `n` hold the semaphore. -/
theorem claim8_concurrency_bound (n k : Nat) (s : List TPc) (h : SemReach n k s) :
    inflightCount s ≤ n := by
  have hmono : inflightCount s ≤ heldCount s := by
    apply countP_le_countP
    intro x hx
    cases x <;> simp_all [occupied]
  exact le_trans hmono (heldCount_le_of_reach h)

/-!
### Worklist characterisation (`_load_existing_csv`, claims C2 and C1)
-/

/-- The id a row contributes to the known-id set, when any. -/
def rowIdOpt (r : CsvRow) : Option Int :=
  if r.message_id.isEmpty then Option.none else pyInt r.message_id

/-- The condition under which a stored row enters the worklist: parsable
`message_id`, `openai_processed` not truthy, and every numeric cell either
empty or parsable.  The `openai_error` cell plays no role. -/
def enqueueCond (r : CsvRow) : Bool :=
  !r.message_id.isEmpty && (pyInt r.message_id).isSome
    && !processedDone r.openai_processed
    && (intField r.channel_id).isSome && (intField r.views).isSome
    && (intField r.forwards).isSome && (intField r.replies).isSome
    && (intField r.from_id).isSome

/-- The worklist dict of a row satisfying `enqueueCond`. -/
def workEntry (r : CsvRow) : MsgDict :=
  mkLoadedDict r ((pyInt r.message_id).getD 0)
    ((intField r.channel_id).getD .none) ((intField r.views).getD .none)
    ((intField r.forwards).getD .none) ((intField r.replies).getD .none)
    ((intField r.from_id).getD .none)

theorem loadRowStep_fst (st : Finset Int × List MsgDict) (r : CsvRow) :
    (loadRowStep st r).1 =
      match rowIdOpt r with
      | Option.none => st.1
      | some mid => insert mid st.1 := by
  unfold loadRowStep rowIdOpt
  by_cases he : r.message_id.isEmpty
  · simp [he]
  · simp only [he, Bool.false_eq_true, ite_false]
    cases hmid : pyInt r.message_id with
    | none => rfl
    | some mid =>
      by_cases hp : processedDone r.openai_processed
      · simp [hp]
      · simp only [hp, Bool.false_eq_true, ite_false]
        cases intField r.channel_id <;> cases intField r.views <;>
          cases intField r.forwards <;> cases intField r.replies <;>
          cases intField r.from_id <;> rfl

theorem loadRowStep_snd (st : Finset Int × List MsgDict) (r : CsvRow) :
    (loadRowStep st r).2 =
      st.2 ++ (if enqueueCond r then [workEntry r] else []) := by
  unfold loadRowStep enqueueCond workEntry
  by_cases he : r.message_id.isEmpty
  · simp [he]
  · simp only [he, Bool.false_eq_true, ite_false, Bool.not_false, Bool.true_and]
    cases hmid : pyInt r.message_id with
    | none => simp [hmid]
    | some mid =>
      by_cases hp : processedDone r.openai_processed
      · simp [hmid, hp]
      · simp only [hmid, hp, Option.isSome_some, Bool.not_false, Bool.true_and,
          Bool.and_true, ite_false, Bool.false_eq_true]
        cases hc : intField r.channel_id <;> cases hv : intField r.views <;>
          cases hf : intField r.forwards <;> cases hr2 : intField r.replies <;>
          cases hfi : intField r.from_id <;>
          simp [hc, hv, hf, hr2, hfi]

theorem load_fold_fst (rows : List CsvRow) :
    ∀ st : Finset Int × List MsgDict,
      (rows.foldl loadRowStep st).1 = st.1 ∪ (storeIdsL rows).toFinset := by
  induction rows with
  | nil => intro st; simp [storeIdsL]
  | cons r rest ih =>
    intro st
    rw [List.foldl_cons, ih]
    have hfst := loadRowStep_fst st r
    unfold storeIdsL at *
    rw [List.filterMap_cons]
    cases hid : rowIdOpt r with
    | none =>
      rw [hfst, hid]
      simp only [rowIdOpt] at hid
      by_cases he : r.message_id.isEmpty
      · simp [he]
      · simp only [he, Bool.false_eq_true, ite_false] at hid
        simp [he, hid]
    | some mid =>
      rw [hfst, hid]
      simp only [rowIdOpt] at hid
      by_cases he : r.message_id.isEmpty
      · simp [he] at hid
      · simp only [he, Bool.false_eq_true, ite_false] at hid
        simp only [he, Bool.false_eq_true, ite_false, hid]
        rw [List.toFinset_cons, Finset.insert_union, Finset.union_insert]

theorem loadExistingCsv_fst (rows : List CsvRow) :
    (loadExistingCsv rows).1 = (storeIdsL rows).toFinset := by
  unfold loadExistingCsv
  rw [load_fold_fst]
  simp

theorem load_fold_snd (rows : List CsvRow) :
    ∀ st : Finset Int × List MsgDict,
      (rows.foldl loadRowStep st).2 = st.2 ++ (rows.filter enqueueCond).map workEntry := by
  induction rows with
  | nil => intro st; simp
  | cons r rest ih =>
    intro st
    rw [List.foldl_cons, ih, List.filter_cons]
    by_cases hq : enqueueCond r
    · rw [loadRowStep_snd]
      simp [hq]
    · rw [loadRowStep_snd]
      simp [hq]

/-- C2 counterexample: a terminally failed row (`openai_processed` falsy,
`openai_error` set) is nevertheless put on the resumption worklist by
`_load_existing_csv`, which never reads `openai_error`. -/
def blankRow : CsvRow :=
  ⟨[], [], [], [], [], [], [], [], [], [], [], [], [], [], [], [], []⟩

/-- A stored row in the terminally-failed state. -/
def failedRow : CsvRow :=
  { blankRow with
      message_id := ['1'],
      openai_processed := "False".toList,
      openai_error := "boom".toList }

/-- C2 is false on the code: `failedRow` is terminally failed
(`enrichment_done` falsy, `enrichment_error` set), yet the worklist
returned by `_load_existing_csv` contains it. -/
theorem claim2_counterexample :
    processedDone failedRow.openai_processed = false ∧
    failedRow.openai_error = "boom".toList ∧
    (loadExistingCsv [failedRow]).2.map (fun d => d.message_id) = [PyVal.int 1] := by
  decide

/-- C2 amended: the worklist returned by `_load_existing_csv` contains
exactly the stored rows whose `message_id` parses, whose numeric cells are
empty or parsable, and whose `openai_processed` value is not truthy —
irrespective of `openai_error`, so terminally failed records are included
(re-enqueued), not excluded. -/
theorem claim2_amended_worklist (rows : List CsvRow) (r : CsvRow) (e : List Char) :
    (loadExistingCsv rows).2 = (rows.filter enqueueCond).map workEntry ∧
    enqueueCond { r with openai_error := e } = enqueueCond r := by
  constructor
  · unfold loadExistingCsv
    rw [load_fold_snd]
    rfl
  · rfl

/-!
### Record states after a completed write (claim C4)
-/

/-- Is a Python value a string? -/
def isStrVal : PyVal → Bool
  | .str _ => true
  | _ => false

/-- The three legal record states of the data model: collected-only,
terminally enriched, terminally failed. -/
def validState (d : MsgDict) : Prop :=
  (d.openai_processed = .bool false ∧ d.openai_analysis = .none ∧ d.openai_error = .none) ∨
  (d.openai_processed = .bool true ∧ isStrVal d.openai_analysis = true ∧
    d.openai_error = .none) ∨
  (d.openai_processed = .bool false ∧ isStrVal d.openai_error = true)

theorem validState_mkMessageData (chan : Chan) (m : Msg) :
    validState (mkMessageData chan m) :=
  Or.inl ⟨rfl, rfl, rfl⟩

theorem validState_applyOutcome (d : MsgDict) (o : ProcOutcome) :
    validState (applyOutcome d o) := by
  cases o with
  | res r =>
    cases r with
    | none => exact Or.inr (Or.inr ⟨rfl, rfl⟩)
    | some j => exact Or.inr (Or.inl ⟨rfl, rfl, rfl⟩)
  | exc e => exact Or.inr (Or.inr ⟨rfl, rfl⟩)

theorem hybrid_written_valid (phrase : List Char) (chan : Chan) (feed : List Msg) :
    ∀ st : HState, (∀ d ∈ st.written, validState d) →
      ∀ d ∈ (feed.foldl (hybridStep phrase chan) st).written, validState d := by
  induction feed with
  | nil => intro st h d hd; exact h d hd
  | cons m rest ih =>
    intro st h
    rw [List.foldl_cons]
    apply ih
    intro d hd
    by_cases hq : qualifies phrase m
    · by_cases hm : m.id ∈ st.ids
      · simp only [hybridStep, hq, if_true, hm, if_pos] at hd
        exact h d hd
      · simp only [hybridStep, hq, if_true, hm, if_neg, ite_false,
          List.mem_append, List.mem_singleton] at hd
        rcases hd with hd | hd
        · exact h d hd
        · subst hd; exact validState_mkMessageData chan m
    · simp only [hybridStep, hq, if_false, ite_false] at hd
      exact h d hd

theorem incr_written_valid (phrase : List Char) (chan : Chan) (feed : List Msg) :
    ∀ st : IState, (∀ d ∈ st.written, validState d) →
      ∀ d ∈ (feed.foldl (incrementalStep phrase chan) st).written, validState d := by
  induction feed with
  | nil => intro st h d hd; exact h d hd
  | cons m rest ih =>
    intro st h
    rw [List.foldl_cons]
    apply ih
    intro d hd
    by_cases hq : qualifies phrase m
    · by_cases hm : m.id ∈ st.ids
      · simp only [incrementalStep, hq, if_true, hm, if_pos] at hd
        exact h d hd
      · simp only [incrementalStep, hq, if_true, hm, if_neg, ite_false,
          List.mem_append, List.mem_singleton] at hd
        rcases hd with hd | hd
        · exact h d hd
        · subst hd; exact validState_applyOutcome _ _
    · simp only [incrementalStep, hq, if_false, ite_false] at hd
      exact h d hd

theorem mem_phase2Writes {wl : List MsgDict} {pOuts : List ProcOutcome} {d : MsgDict}
    (h : d ∈ phase2Writes wl pOuts) : ∃ w o, d = applyOutcome w o := by
  induction wl generalizing pOuts with
  | nil => simp [phase2Writes] at h
  | cons w rest ih =>
    cases pOuts with
    | nil => simp [phase2Writes] at h
    | cons o os =>
      simp only [phase2Writes, List.zipWith_cons_cons] at h
      rcases List.mem_cons.mp h with hh | hh
      · exact ⟨w, o, hh⟩
      · exact ih hh

/-- C4: every record value a run passes to the store's append or update —
the freshly collected records of both modes, the enriched records of
incremental mode, and the phase-2 write-backs — is in exactly one of the
three states: collected-only, terminally enriched, or terminally failed. -/
theorem claim4_write_states (phrase : List Char) (chan : Chan) (feed : List Msg)
    (rows : List CsvRow) (outs : List WOutcome) (procOuts : List ProcOutcome)
    (wl : List MsgDict) (pOuts : List ProcOutcome) (d : MsgDict) :
    (d ∈ (scrapeMessagesHybrid phrase chan feed rows outs).written → validState d) ∧
    (d ∈ (scrapeMessagesIncremental phrase chan feed rows procOuts outs).written →
      validState d) ∧
    (d ∈ phase2Writes wl pOuts → validState d) := by
  refine ⟨?_, ?_, ?_⟩
  · intro hd
    exact hybrid_written_valid phrase chan feed _ (by intro x hx; simp at hx) d hd
  · intro hd
    exact incr_written_valid phrase chan feed _ (by intro x hx; simp at hx) d hd
  · intro hd
    obtain ⟨w, o, rfl⟩ := mem_phase2Writes hd
    exact validState_applyOutcome w o

/-!
### Incremental-mode ordering (claim C5)
-/

/-- The integer id carried by a message dict. -/
def dictId (d : MsgDict) : Int :=
  match d.message_id with
  | .int i => i
  | _ => 0

theorem applyOutcome_message_id (d : MsgDict) (o : ProcOutcome) :
    (applyOutcome d o).message_id = d.message_id := by
  cases o with
  | res r => cases r <;> rfl
  | exc e => rfl

theorem dictId_applyOutcome_mk (chan : Chan) (m : Msg) (o : ProcOutcome) :
    dictId (applyOutcome (mkMessageData chan m) o) = m.id := by
  unfold dictId
  rw [applyOutcome_message_id]
  rfl

theorem incr_trace_inv (phrase : List Char) (chan : Chan) (feed : List Msg) :
    ∀ st : IState,
      st.events = (st.written.map
        (fun d => [Ev.procCall (dictId d), Ev.append (dictId d)])).flatten →
      (feed.foldl (incrementalStep phrase chan) st).events =
        ((feed.foldl (incrementalStep phrase chan) st).written.map
          (fun d => [Ev.procCall (dictId d), Ev.append (dictId d)])).flatten := by
  induction feed with
  | nil => intro st h; exact h
  | cons m rest ih =>
    intro st h
    rw [List.foldl_cons]
    apply ih
    by_cases hq : qualifies phrase m
    · by_cases hm : m.id ∈ st.ids
      · simp only [incrementalStep, hq, if_true, hm, if_pos]
        exact h
      · simp only [incrementalStep, hq, if_true, hm, if_neg, ite_false]
        rw [List.map_append, List.flatten_append, ← h]
        simp [dictId_applyOutcome_mk]
    · simp only [incrementalStep, hq, if_false, ite_false]
      exact h

/-- C5 amended: in incremental mode the event trace is exactly, per written
record and in order, the Analyzer Client call followed by the single append
of the already-enriched record: the call precedes the append (there is no
earlier collected-only append), and message N+1's pair starts only after
message N's append. -/
theorem claim5_amended_call_then_append (phrase : List Char) (chan : Chan)
    (feed : List Msg) (rows : List CsvRow) (procOuts : List ProcOutcome)
    (outs : List WOutcome) :
    (scrapeMessagesIncremental phrase chan feed rows procOuts outs).events =
      ((scrapeMessagesIncremental phrase chan feed rows procOuts outs).written.map
        (fun d => [Ev.procCall (dictId d), Ev.append (dictId d)])).flatten := by
  unfold scrapeMessagesIncremental
  exact incr_trace_inv phrase chan feed _ rfl

/-- A concrete qualifying feed message and channel for counterexamples and
witnesses. -/
def m0 : Msg :=
  { id := 1, text := some ['a'], dateIso := Option.none, views := Option.none,
    forwards := Option.none, replies := Option.none, editDateIso := Option.none,
    groupedId := Option.none, fromId := Option.none, postAuthor := Option.none,
    fullObj := ['o'] }

/-- A concrete channel. -/
def c0 : Chan := { username := some ['u'], title := ['t'], id := 5 }

/-- C5 is false on the code: in incremental mode the only store write for a
qualifying new message happens after the Analyzer Client call
(`events = [procCall, append]`), and the appended row already carries
`openai_processed = True` — no collected-only record is appended first, and
there is no separate enrichment write-back. -/
theorem claim5_counterexample :
    (scrapeMessagesIncremental ['a'] c0 [m0] [] [ProcOutcome.res (some ['j'])] []).events
      = [Ev.procCall 1, Ev.append 1] ∧
    (scrapeMessagesIncremental ['a'] c0 [m0] [] [ProcOutcome.res (some ['j'])] []).rows.map
      (fun r => r.openai_processed) = ["True".toList] := by
  decide

/-!
### At-most-once append and idempotent re-runs (claim C1)
-/

/-- Is a Python value an int? -/
def isIntVal : PyVal → Bool
  | .int _ => true
  | _ => false

theorem storeIdsL_eq_filterMap (rows : List CsvRow) :
    storeIdsL rows = rows.filterMap rowIdOpt := rfl

theorem storeIdsL_append (a b : List CsvRow) :
    storeIdsL (a ++ b) = storeIdsL a ++ storeIdsL b := by
  rw [storeIdsL_eq_filterMap, storeIdsL_eq_filterMap, storeIdsL_eq_filterMap,
    List.filterMap_append]

theorem rowIdOpt_toCsvRow (d : MsgDict) (i : Int) (h : d.message_id = .int i) :
    rowIdOpt (toCsvRow d) = some i := by
  have hmsg : (toCsvRow d).message_id = pyStrInt i := by
    show csvStr d.message_id = pyStrInt i
    rw [h]
    rfl
  have hemp : (pyStrInt i).isEmpty = false := by
    cases hp : pyStrInt i with
    | nil => exact absurd hp (pyStrInt_ne_nil i)
    | cons a t => rfl
  unfold rowIdOpt
  rw [hmsg]
  simp [hemp, pyInt_pyStrInt]

theorem storeIdsL_map_toCsvRow (ws : List MsgDict)
    (h : ∀ d ∈ ws, isIntVal d.message_id = true) :
    storeIdsL (ws.map toCsvRow) = ws.map dictId := by
  induction ws with
  | nil => rfl
  | cons d rest ih =>
    have hd := h d (List.mem_cons_self d rest)
    obtain ⟨i, hi⟩ : ∃ i, d.message_id = .int i := by
      cases hmi : d.message_id with
      | int i => exact ⟨i, rfl⟩
      | none => rw [hmi] at hd; exact absurd hd (by simp [isIntVal])
      | str s => rw [hmi] at hd; exact absurd hd (by simp [isIntVal])
      | bool b => rw [hmi] at hd; exact absurd hd (by simp [isIntVal])
    rw [List.map_cons, storeIdsL_eq_filterMap, List.filterMap_cons,
      rowIdOpt_toCsvRow d i hi]
    rw [← storeIdsL_eq_filterMap, ih fun x hx => h x (List.mem_cons_of_mem d hx)]
    have hdid : dictId d = i := by unfold dictId; rw [hi]
    rw [List.map_cons, hdid]

theorem isIntVal_mkMessageData (chan : Chan) (m : Msg) :
    isIntVal (mkMessageData chan m).message_id = true := rfl

theorem isIntVal_applyOutcome (d : MsgDict) (o : ProcOutcome) :
    isIntVal (applyOutcome d o).message_id = isIntVal d.message_id := by
  rw [applyOutcome_message_id]

/-- The invariant of the hybrid collection fold: it appends a block of new
records whose ids are pairwise distinct and disjoint from the starting id
set. -/
theorem hybrid_inv (phrase : List Char) (chan : Chan) :
    ∀ (feed : List Msg) (st : HState), st.outs = [] →
    ∃ new : List MsgDict,
      (feed.foldl (hybridStep phrase chan) st).rows = st.rows ++ new.map toCsvRow ∧
      (feed.foldl (hybridStep phrase chan) st).ids = st.ids ∪ (new.map dictId).toFinset ∧
      (feed.foldl (hybridStep phrase chan) st).written = st.written ++ new ∧
      (new.map dictId).Nodup ∧
      (∀ i ∈ new.map dictId, i ∉ st.ids) ∧
      (∀ d ∈ new, isIntVal d.message_id = true) := by
  intro feed
  induction feed with
  | nil =>
    intro st hst
    exact ⟨[], by simp, by simp, by simp, by simp, by simp, by simp⟩
  | cons m rest ih =>
    intro st hst
    rw [List.foldl_cons]
    by_cases hq : qualifies phrase m
    · by_cases hm : m.id ∈ st.ids
      · have hstep : hybridStep phrase chan st m = st := by
          simp [hybridStep, hq, hm]
        rw [hstep]; exact ih st hst
      · have hrows : (hybridStep phrase chan st m).rows
            = st.rows ++ [toCsvRow (mkMessageData chan m)] := by
          simp [hybridStep, hq, hm, hst, appendToCsv, appendToCsvBody]
        have hids : (hybridStep phrase chan st m).ids = insert m.id st.ids := by
          simp [hybridStep, hq, hm]
        have hwr : (hybridStep phrase chan st m).written
            = st.written ++ [mkMessageData chan m] := by
          simp [hybridStep, hq, hm]
        have houts2 : (hybridStep phrase chan st m).outs = [] := by
          simp [hybridStep, hq, hm, hst]
        obtain ⟨new, h1, h2, h3, h5, h6, h7⟩ := ih (hybridStep phrase chan st m) houts2
        rw [hrows] at h1
        rw [hids] at h2 h6
        rw [hwr] at h3
        have hdid : dictId (mkMessageData chan m) = m.id := rfl
        refine ⟨mkMessageData chan m :: new, ?_, ?_, ?_, ?_, ?_, ?_⟩
        · rw [h1]; simp
        · rw [h2]
          simp only [List.map_cons, hdid, List.toFinset_cons]
          rw [Finset.union_insert, Finset.insert_union]
        · rw [h3]; simp
        · simp only [List.map_cons, hdid, List.nodup_cons]
          refine ⟨fun hmem => h6 m.id hmem (Finset.mem_insert_self _ _), h5⟩
        · intro i hi
          rcases List.mem_cons.mp hi with hi | hi
          · rw [hdid] at hi; subst hi; exact hm
          · intro hin
            exact h6 i hi (Finset.mem_insert_of_mem hin)
        · intro d2 hd2
          rcases List.mem_cons.mp hd2 with hd2 | hd2
          · subst hd2; rfl
          · exact h7 d2 hd2
    · have hstep : hybridStep phrase chan st m = st := by
        simp [hybridStep, hq]
      rw [hstep]; exact ih st hst

theorem hybrid_ids_mono (phrase : List Char) (chan : Chan) :
    ∀ (feed : List Msg) (st : HState),
      st.ids ⊆ (feed.foldl (hybridStep phrase chan) st).ids := by
  intro feed
  induction feed with
  | nil => intro st; exact Finset.Subset.refl _
  | cons m rest ih =>
    intro st
    rw [List.foldl_cons]
    refine Finset.Subset.trans ?_ (ih (hybridStep phrase chan st m))
    unfold hybridStep
    by_cases hq : qualifies phrase m
    · by_cases hm : m.id ∈ st.ids
      · simp [hq, hm]
      · simp only [hq, if_true, hm, ite_false]
        exact Finset.subset_insert _ _
    · simp [hq]

theorem hybrid_ids_contains (phrase : List Char) (chan : Chan) :
    ∀ (feed : List Msg) (st : HState) (m : Msg), m ∈ feed →
      qualifies phrase m = true →
      m.id ∈ (feed.foldl (hybridStep phrase chan) st).ids := by
  intro feed
  induction feed with
  | nil => intro st m hm; simp at hm
  | cons m1 rest ih =>
    intro st m hm hq
    rw [List.foldl_cons]
    rcases List.mem_cons.mp hm with hm | hm
    · subst hm
      apply hybrid_ids_mono phrase chan rest
      unfold hybridStep
      by_cases hmem : m.id ∈ st.ids
      · simp [hq, hmem]
      · simp only [hq, if_true, hmem, ite_false]
        exact Finset.mem_insert_self _ _
    · exact ih (hybridStep phrase chan st m1) m hm hq

theorem hybrid_fixed (phrase : List Char) (chan : Chan) :
    ∀ (feed : List Msg) (st : HState),
      (∀ m ∈ feed, qualifies phrase m = true → m.id ∈ st.ids) →
      feed.foldl (hybridStep phrase chan) st = st := by
  intro feed
  induction feed with
  | nil => intro st _; rfl
  | cons m rest ih =>
    intro st h
    rw [List.foldl_cons]
    have hstep : hybridStep phrase chan st m = st := by
      unfold hybridStep
      by_cases hq : qualifies phrase m
      · simp [hq, h m (List.mem_cons_self m rest) hq]
      · simp [hq]
    rw [hstep]
    exact ih st fun x hx => h x (List.mem_cons_of_mem m hx)

/-- The invariant of the incremental fold, identical in shape to
`hybrid_inv`: the appended records are the enriched forms of the collected
ones, ids distinct and disjoint from the starting set. -/
theorem incr_inv (phrase : List Char) (chan : Chan) :
    ∀ (feed : List Msg) (st : IState), st.outs = [] →
    ∃ new : List MsgDict,
      (feed.foldl (incrementalStep phrase chan) st).rows = st.rows ++ new.map toCsvRow ∧
      (feed.foldl (incrementalStep phrase chan) st).ids
        = st.ids ∪ (new.map dictId).toFinset ∧
      (feed.foldl (incrementalStep phrase chan) st).written = st.written ++ new ∧
      (new.map dictId).Nodup ∧
      (∀ i ∈ new.map dictId, i ∉ st.ids) ∧
      (∀ d ∈ new, isIntVal d.message_id = true) := by
  intro feed
  induction feed with
  | nil =>
    intro st hst
    exact ⟨[], by simp, by simp, by simp, by simp, by simp, by simp⟩
  | cons m rest ih =>
    intro st hst
    rw [List.foldl_cons]
    by_cases hq : qualifies phrase m
    · by_cases hm : m.id ∈ st.ids
      · have hstep : incrementalStep phrase chan st m = st := by
          simp [incrementalStep, hq, hm]
        rw [hstep]; exact ih st hst
      · have hrows : (incrementalStep phrase chan st m).rows
            = st.rows ++ [toCsvRow (applyOutcome (mkMessageData chan m)
                (st.procOuts.headD (.res Option.none)))] := by
          simp [incrementalStep, hq, hm, hst, appendToCsv, appendToCsvBody]
        have hids : (incrementalStep phrase chan st m).ids = insert m.id st.ids := by
          simp [incrementalStep, hq, hm]
        have hwr : (incrementalStep phrase chan st m).written
            = st.written ++ [applyOutcome (mkMessageData chan m)
                (st.procOuts.headD (.res Option.none))] := by
          simp [incrementalStep, hq, hm]
        have houts2 : (incrementalStep phrase chan st m).outs = [] := by
          simp [incrementalStep, hq, hm, hst]
        obtain ⟨new, h1, h2, h3, h5, h6, h7⟩ := ih (incrementalStep phrase chan st m) houts2
        rw [hrows] at h1
        rw [hids] at h2 h6
        rw [hwr] at h3
        have hdid : dictId (applyOutcome (mkMessageData chan m)
            (st.procOuts.headD (.res Option.none))) = m.id :=
          dictId_applyOutcome_mk chan m _
        refine ⟨applyOutcome (mkMessageData chan m)
          (st.procOuts.headD (.res Option.none)) :: new, ?_, ?_, ?_, ?_, ?_, ?_⟩
        · rw [h1]; simp
        · rw [h2]
          simp only [List.map_cons, hdid, List.toFinset_cons]
          rw [Finset.union_insert, Finset.insert_union]
        · rw [h3]; simp
        · simp only [List.map_cons, hdid, List.nodup_cons]
          refine ⟨fun hmem => h6 m.id hmem (Finset.mem_insert_self _ _), h5⟩
        · intro i hi
          rcases List.mem_cons.mp hi with hi | hi
          · rw [hdid] at hi; subst hi; exact hm
          · intro hin
            exact h6 i hi (Finset.mem_insert_of_mem hin)
        · intro d2 hd2
          rcases List.mem_cons.mp hd2 with hd2 | hd2
          · subst hd2
            rw [isIntVal_applyOutcome]
            rfl
          · exact h7 d2 hd2
    · have hstep : incrementalStep phrase chan st m = st := by
        simp [incrementalStep, hq]
      rw [hstep]; exact ih st hst

theorem incr_ids_mono (phrase : List Char) (chan : Chan) :
    ∀ (feed : List Msg) (st : IState),
      st.ids ⊆ (feed.foldl (incrementalStep phrase chan) st).ids := by
  intro feed
  induction feed with
  | nil => intro st; exact Finset.Subset.refl _
  | cons m rest ih =>
    intro st
    rw [List.foldl_cons]
    refine Finset.Subset.trans ?_ (ih (incrementalStep phrase chan st m))
    unfold incrementalStep
    by_cases hq : qualifies phrase m
    · by_cases hm : m.id ∈ st.ids
      · simp [hq, hm]
      · simp only [hq, if_true, hm, ite_false]
        exact Finset.subset_insert _ _
    · simp [hq]

theorem incr_ids_contains (phrase : List Char) (chan : Chan) :
    ∀ (feed : List Msg) (st : IState) (m : Msg), m ∈ feed →
      qualifies phrase m = true →
      m.id ∈ (feed.foldl (incrementalStep phrase chan) st).ids := by
  intro feed
  induction feed with
  | nil => intro st m hm; simp at hm
  | cons m1 rest ih =>
    intro st m hm hq
    rw [List.foldl_cons]
    rcases List.mem_cons.mp hm with hm | hm
    · subst hm
      apply incr_ids_mono phrase chan rest
      unfold incrementalStep
      by_cases hmem : m.id ∈ st.ids
      · simp [hq, hmem]
      · simp only [hq, if_true, hmem, ite_false]
        exact Finset.mem_insert_self _ _
    · exact ih (incrementalStep phrase chan st m1) m hm hq

theorem incr_fixed (phrase : List Char) (chan : Chan) :
    ∀ (feed : List Msg) (st : IState),
      (∀ m ∈ feed, qualifies phrase m = true → m.id ∈ st.ids) →
      feed.foldl (incrementalStep phrase chan) st = st := by
  intro feed
  induction feed with
  | nil => intro st _; rfl
  | cons m rest ih =>
    intro st h
    rw [List.foldl_cons]
    have hstep : incrementalStep phrase chan st m = st := by
      unfold incrementalStep
      by_cases hq : qualifies phrase m
      · simp [hq, h m (List.mem_cons_self m rest) hq]
      · simp [hq]
    rw [hstep]
    exact ih st fun x hx => h x (List.mem_cons_of_mem m hx)

/-- C1: starting from a store with pairwise-distinct parsed ids, a run in
either mode keeps the ids of all rows pairwise distinct (a candidate whose
id is already known is skipped without appending, in both modes), and a
second run over the unchanged feed and the resulting store appends zero new
rows and leaves the store unchanged. -/
theorem claim1_at_most_once_idempotent (phrase : List Char) (chan : Chan)
    (feed : List Msg) (rows : List CsvRow) (procOuts1 procOuts2 : List ProcOutcome)
    (sH : HState) (sI : IState) (mh mi : Msg)
    (hnd : (storeIdsL rows).Nodup)
    (hqh : qualifies phrase mh = true) (hmh : mh.id ∈ sH.ids)
    (hqi : qualifies phrase mi = true) (hmi : mi.id ∈ sI.ids) :
    hybridStep phrase chan sH mh = sH ∧
    incrementalStep phrase chan sI mi = sI ∧
    (storeIdsL (scrapeMessagesHybrid phrase chan feed rows []).rows).Nodup ∧
    (scrapeMessagesHybrid phrase chan feed
      (scrapeMessagesHybrid phrase chan feed rows []).rows []).written = [] ∧
    (scrapeMessagesHybrid phrase chan feed
      (scrapeMessagesHybrid phrase chan feed rows []).rows []).rows
      = (scrapeMessagesHybrid phrase chan feed rows []).rows ∧
    (storeIdsL (scrapeMessagesIncremental phrase chan feed rows procOuts1 []).rows).Nodup ∧
    (scrapeMessagesIncremental phrase chan feed
      (scrapeMessagesIncremental phrase chan feed rows procOuts1 []).rows
      procOuts2 []).written = [] ∧
    (scrapeMessagesIncremental phrase chan feed
      (scrapeMessagesIncremental phrase chan feed rows procOuts1 []).rows
      procOuts2 []).rows
      = (scrapeMessagesIncremental phrase chan feed rows procOuts1 []).rows := by
  have hskipH : hybridStep phrase chan sH mh = sH := by
    simp [hybridStep, hqh, hmh]
  have hskipI : incrementalStep phrase chan sI mi = sI := by
    simp [incrementalStep, hqi, hmi]
  -- Hybrid run 1.
  have hrun1 : scrapeMessagesHybrid phrase chan feed rows []
      = feed.foldl (hybridStep phrase chan)
        { rows := rows, ids := (loadExistingCsv rows).1, written := [], outs := [] } := rfl
  obtain ⟨newH, hH1, hH2, hH3, hH5, hH6, hH7⟩ := hybrid_inv phrase chan feed
    { rows := rows, ids := (loadExistingCsv rows).1, written := [], outs := [] } rfl
  have hHrows : (scrapeMessagesHybrid phrase chan feed rows []).rows
      = rows ++ newH.map toCsvRow := by
    rw [hrun1, hH1]
  have hHsids : storeIdsL (scrapeMessagesHybrid phrase chan feed rows []).rows
      = storeIdsL rows ++ newH.map dictId := by
    rw [hHrows, storeIdsL_append, storeIdsL_map_toCsvRow newH hH7]
  have hHdisj : (storeIdsL rows).Disjoint (newH.map dictId) := by
    intro a ha hb
    refine hH6 a hb ?_
    show a ∈ (loadExistingCsv rows).1
    rw [loadExistingCsv_fst]
    exact List.mem_toFinset.mpr ha
  have hHnodup : (storeIdsL (scrapeMessagesHybrid phrase chan feed rows []).rows).Nodup := by
    rw [hHsids]
    exact List.Nodup.append hnd hH5 hHdisj
  -- Every qualifying feed id is known after hybrid run 1.
  have hHidsall : (scrapeMessagesHybrid phrase chan feed rows []).ids
      = (storeIdsL (scrapeMessagesHybrid phrase chan feed rows []).rows).toFinset := by
    rw [hrun1, hH2, hH1, storeIdsL_append, storeIdsL_map_toCsvRow newH hH7,
      List.toFinset_append]
    show (loadExistingCsv rows).1 ∪ _ = (storeIdsL rows).toFinset ∪ _
    rw [loadExistingCsv_fst]
  have hHcov : ∀ m ∈ feed, qualifies phrase m = true →
      m.id ∈ (loadExistingCsv (scrapeMessagesHybrid phrase chan feed rows []).rows).1 := by
    intro m hm hq
    rw [loadExistingCsv_fst, ← hHidsall, hrun1]
    exact hybrid_ids_contains phrase chan feed _ m hm hq
  -- Hybrid run 2 is a no-op.
  have hrun2 : scrapeMessagesHybrid phrase chan feed
      (scrapeMessagesHybrid phrase chan feed rows []).rows []
      = feed.foldl (hybridStep phrase chan)
        { rows := (scrapeMessagesHybrid phrase chan feed rows []).rows,
          ids := (loadExistingCsv (scrapeMessagesHybrid phrase chan feed rows []).rows).1,
          written := [], outs := [] } := rfl
  have hHfix : feed.foldl (hybridStep phrase chan)
      { rows := (scrapeMessagesHybrid phrase chan feed rows []).rows,
        ids := (loadExistingCsv (scrapeMessagesHybrid phrase chan feed rows []).rows).1,
        written := [], outs := [] }
      = { rows := (scrapeMessagesHybrid phrase chan feed rows []).rows,
          ids := (loadExistingCsv (scrapeMessagesHybrid phrase chan feed rows []).rows).1,
          written := [], outs := [] } := by
    apply hybrid_fixed
    intro m hm hq
    exact hHcov m hm hq
  -- Incremental run 1.
  have irun1 : scrapeMessagesIncremental phrase chan feed rows procOuts1 []
      = feed.foldl (incrementalStep phrase chan)
        { rows := rows, ids := (loadExistingCsv rows).1, written := [],
          events := [], procOuts := procOuts1, outs := [] } := rfl
  obtain ⟨newI, hI1, hI2, hI3, hI5, hI6, hI7⟩ := incr_inv phrase chan feed
    { rows := rows, ids := (loadExistingCsv rows).1, written := [],
      events := [], procOuts := procOuts1, outs := [] } rfl
  have hIrows : (scrapeMessagesIncremental phrase chan feed rows procOuts1 []).rows
      = rows ++ newI.map toCsvRow := by
    rw [irun1, hI1]
  have hIsids : storeIdsL (scrapeMessagesIncremental phrase chan feed rows procOuts1 []).rows
      = storeIdsL rows ++ newI.map dictId := by
    rw [hIrows, storeIdsL_append, storeIdsL_map_toCsvRow newI hI7]
  have hIdisj : (storeIdsL rows).Disjoint (newI.map dictId) := by
    intro a ha hb
    refine hI6 a hb ?_
    show a ∈ (loadExistingCsv rows).1
    rw [loadExistingCsv_fst]
    exact List.mem_toFinset.mpr ha
  have hInodup :
      (storeIdsL (scrapeMessagesIncremental phrase chan feed rows procOuts1 []).rows).Nodup := by
    rw [hIsids]
    exact List.Nodup.append hnd hI5 hIdisj
  have hIidsall : (scrapeMessagesIncremental phrase chan feed rows procOuts1 []).ids
      = (storeIdsL (scrapeMessagesIncremental phrase chan feed rows procOuts1 []).rows).toFinset := by
    rw [irun1, hI2, hI1, storeIdsL_append, storeIdsL_map_toCsvRow newI hI7,
      List.toFinset_append]
    show (loadExistingCsv rows).1 ∪ _ = (storeIdsL rows).toFinset ∪ _
    rw [loadExistingCsv_fst]
  have hIcov : ∀ m ∈ feed, qualifies phrase m = true →
      m.id ∈ (loadExistingCsv
        (scrapeMessagesIncremental phrase chan feed rows procOuts1 []).rows).1 := by
    intro m hm hq
    rw [loadExistingCsv_fst, ← hIidsall, irun1]
    exact incr_ids_contains phrase chan feed _ m hm hq
  have irun2 : scrapeMessagesIncremental phrase chan feed
      (scrapeMessagesIncremental phrase chan feed rows procOuts1 []).rows procOuts2 []
      = feed.foldl (incrementalStep phrase chan)
        { rows := (scrapeMessagesIncremental phrase chan feed rows procOuts1 []).rows,
          ids := (loadExistingCsv
            (scrapeMessagesIncremental phrase chan feed rows procOuts1 []).rows).1,
          written := [], events := [], procOuts := procOuts2, outs := [] } := rfl
  have hIfix : feed.foldl (incrementalStep phrase chan)
      { rows := (scrapeMessagesIncremental phrase chan feed rows procOuts1 []).rows,
        ids := (loadExistingCsv
          (scrapeMessagesIncremental phrase chan feed rows procOuts1 []).rows).1,
        written := [], events := [], procOuts := procOuts2, outs := [] }
      = { rows := (scrapeMessagesIncremental phrase chan feed rows procOuts1 []).rows,
          ids := (loadExistingCsv
            (scrapeMessagesIncremental phrase chan feed rows procOuts1 []).rows).1,
          written := [], events := [], procOuts := procOuts2, outs := [] } := by
    apply incr_fixed
    intro m hm hq
    exact hIcov m hm hq
  refine ⟨hskipH, hskipI, hHnodup, ?_, ?_, hInodup, ?_, ?_⟩
  · rw [hrun2, hHfix]
  · rw [hrun2, hHfix]
  · rw [irun2, hIfix]
  · rw [irun2, hIfix]

/-!
### Response-normalization lemmas (claim C7)
-/

theorem dropWhile_cons_false {c : Char} {s : List Char} (h : isPySpace c = false) :
    (c :: s).dropWhile isPySpace = c :: s := by
  simp [List.dropWhile, h]

theorem pyStrip_sandwich {a b : Char} (xs : List Char)
    (ha : isPySpace a = false) (hb : isPySpace b = false) :
    pyStrip (a :: (xs ++ [b])) = a :: (xs ++ [b]) := by
  unfold pyStrip
  rw [dropWhile_cons_false ha]
  have hrev : (a :: (xs ++ [b])).reverse = b :: (xs.reverse ++ [a]) := by simp
  rw [hrev, dropWhile_cons_false hb, ← hrev, List.reverse_reverse]

theorem pyStrip_cons_space {c : Char} (h : isPySpace c = true) (s : List Char) :
    pyStrip (c :: s) = pyStrip s := by
  unfold pyStrip
  rw [show (c :: s).dropWhile isPySpace = s.dropWhile isPySpace from by
    simp [List.dropWhile, h]]

theorem dropLead_append_single {c : Char} (h : isPySpace c = true) (s : List Char) :
    (s ++ [c]).dropWhile isPySpace
      = if (s.dropWhile isPySpace).isEmpty then []
        else s.dropWhile isPySpace ++ [c] := by
  induction s with
  | nil => simp [List.dropWhile, h]
  | cons a t ih =>
    by_cases ha : isPySpace a = true
    · simp only [List.cons_append, List.dropWhile, ha]
      exact ih
    · have ha2 : isPySpace a = false := by simpa using ha
      simp [List.dropWhile, ha2]

theorem pyStrip_append_space {c : Char} (h : isPySpace c = true) (s : List Char) :
    pyStrip (s ++ [c]) = pyStrip s := by
  unfold pyStrip
  rw [dropLead_append_single h]
  by_cases he : (s.dropWhile isPySpace).isEmpty
  · simp only [he, if_pos]
    have hnil : s.dropWhile isPySpace = [] := by
      cases hs : s.dropWhile isPySpace with
      | nil => rfl
      | cons x y => rw [hs] at he; simp at he
    rw [hnil]
  · simp only [he, ite_false, Bool.false_eq_true]
    have hrev : (s.dropWhile isPySpace ++ [c]).reverse
        = c :: (s.dropWhile isPySpace).reverse := by simp
    rw [hrev, show (c :: (s.dropWhile isPySpace).reverse).dropWhile isPySpace
      = (s.dropWhile isPySpace).reverse.dropWhile isPySpace from by
        simp [List.dropWhile, h]]

theorem hasPre_append_self (p s : List Char) : hasPre p (p ++ s) = true := by
  induction p with
  | nil => rfl
  | cons a t ih => simp [hasPre, ih]

theorem hasPre_of_append {a b s : List Char} (h : hasPre (a ++ b) s = true) :
    hasPre a s = true := by
  induction a generalizing s with
  | nil => rfl
  | cons x t ih =>
    cases s with
    | nil => simp [hasPre] at h
    | cons c cs =>
      simp only [List.cons_append, hasPre, Bool.and_eq_true] at h ⊢
      exact ⟨h.1, ih h.2⟩

theorem take_length_add (xs ys : List Char) (n : Nat) :
    (xs ++ ys).take (xs.length + n) = xs ++ ys.take n := by
  induction xs with
  | nil => simp
  | cons a t ih =>
    rw [List.cons_append, List.length_cons,
      show t.length + 1 + n = (t.length + n) + 1 from by omega,
      List.take_succ_cons, ih, List.cons_append]

theorem isPySpace_tick : isPySpace tick = false := by decide

theorem isPySpace_nl : isPySpace '\n' = true := by decide

/-- The strip at line 82 leaves a fenced payload unchanged: it begins and
ends with a backtick. -/
theorem pyStrip_fenced (body : List Char) :
    pyStrip (fenceJsonMark ++ '\n' :: (body ++ '\n' :: fenceMark))
      = fenceJsonMark ++ '\n' :: (body ++ '\n' :: fenceMark) := by
  have hw : fenceJsonMark ++ '\n' :: (body ++ '\n' :: fenceMark)
      = tick :: ((tick :: tick :: 'j' :: 's' :: 'o' :: 'n' :: '\n'
          :: (body ++ ['\n', tick, tick])) ++ [tick]) := by
    simp [fenceJsonMark, fenceMark]
  rw [hw, pyStrip_sandwich _ isPySpace_tick isPySpace_tick]

theorem fenced_ne_nullSentinel (body : List Char) :
    fenceJsonMark ++ '\n' :: (body ++ '\n' :: fenceMark) ≠ nullSentinel := by
  intro h
  have h2 : (fenceJsonMark ++ '\n' :: (body ++ '\n' :: fenceMark)).headD ' '
      = nullSentinel.headD ' ' := by rw [h]
  have h3 : (fenceJsonMark ++ '\n' :: (body ++ '\n' :: fenceMark)).headD ' ' = tick := rfl
  rw [h3] at h2
  exact absurd h2 (by decide)

/-- Lines 92-111 on a fenced payload: the `json` fence prefix is dropped,
the trailing fence is dropped, the remainder stripped, and the
first-`\x7b`-to-last-`\x7d` span selected. -/
theorem cleanSpan_fenced (body : List Char) :
    cleanSpan (fenceJsonMark ++ '\n' :: (body ++ '\n' :: fenceMark))
      = spanSlice (pyStrip body) := by
  have hpre : hasPre fenceJsonMark
      (fenceJsonMark ++ '\n' :: (body ++ '\n' :: fenceMark)) = true :=
    hasPre_append_self _ _
  have hdrop : (fenceJsonMark ++ '\n' :: (body ++ '\n' :: fenceMark)).drop 7
      = '\n' :: (body ++ '\n' :: fenceMark) := rfl
  have hsuf : hasSuf fenceMark ('\n' :: (body ++ '\n' :: fenceMark)) = true := by
    unfold hasSuf
    have hrev : ('\n' :: (body ++ '\n' :: fenceMark)).reverse
        = tick :: tick :: tick :: '\n' :: (body.reverse ++ ['\n']) := by
      simp [fenceMark]
    rw [hrev]
    simp [hasPre, fenceMark]
  have hlen : ('\n' :: (body ++ '\n' :: fenceMark)).length - 3 = body.length + 2 := by
    simp [fenceMark]
  have htake : ('\n' :: (body ++ '\n' :: fenceMark)).take
      (('\n' :: (body ++ '\n' :: fenceMark)).length - 3) = '\n' :: (body ++ ['\n']) := by
    rw [hlen, show body.length + 2 = (body.length + 1) + 1 from rfl, List.take_succ_cons,
      show body.length + 1 = body.length + 1 from rfl, take_length_add]
    rfl
  simp only [cleanSpan]
  rw [pyStrip_fenced, hpre]
  simp only [if_true]
  rw [hdrop, hsuf]
  simp only [if_true]
  rw [htake, pyStrip_cons_space isPySpace_nl, pyStrip_append_space isPySpace_nl]

theorem cleanSpan_unfenced (raw : List Char) (hs0 : pyStrip raw = raw)
    (hf : hasPre fenceMark raw = false) (hsuffix : hasSuf fenceMark raw = false) :
    cleanSpan raw = spanSlice raw := by
  have hfj : hasPre fenceJsonMark raw = false := by
    cases hh : hasPre fenceJsonMark raw
    · rfl
    · exfalso
      have : hasPre fenceMark raw = true :=
        hasPre_of_append (a := fenceMark) (b := "json".toList) hh
      rw [hf] at this
      exact Bool.false_ne_true this
  simp only [cleanSpan]
  rw [hs0, hfj, hf]
  simp only [Bool.false_eq_true, if_false]
  rw [hsuffix]
  simp only [Bool.false_eq_true, if_false]
  rw [hs0]

/-- C7: response normalization of the Analyzer Client.  With `p` standing
for the JSON library parser: the exact sentinel returns `none` whatever the
parser does; a ```` ```json ````-fenced payload has its fences stripped and
the first-`\x7b`-to-last-`\x7d` span of the stripped body parsed, returning
the parsed payload; an unfenced response (e.g. leading prose before the
object) has its first-`\x7b`-to-last-`\x7d` span parsed, returning the
parsed payload; and when the span fails to parse, the result is the
brace-balanced line-scan fallback `manualScan`, which itself yields `none`
only when its parse fails or no line starts with `\x7b`. -/
theorem claim7_parser_robustness {α : Type} (p q : List Char → Option α)
    (body raw rawF : List Char) (j k : α)
    (hb : p (spanSlice (pyStrip body)) = some j)
    (hs0 : pyStrip raw = raw) (hn : raw ≠ nullSentinel)
    (hf : hasPre fenceMark raw = false) (hsuffix : hasSuf fenceMark raw = false)
    (hk : p (spanSlice raw) = some k)
    (gs0 : pyStrip rawF = rawF) (gn : rawF ≠ nullSentinel)
    (gf : hasPre fenceMark rawF = false) (gsuffix : hasSuf fenceMark rawF = false)
    (gfail : p (spanSlice rawF) = none) :
    parseResponse q nullSentinel = none ∧
    cleanSpan (fenceJsonMark ++ '\n' :: (body ++ '\n' :: fenceMark))
      = spanSlice (pyStrip body) ∧
    parseResponse p (fenceJsonMark ++ '\n' :: (body ++ '\n' :: fenceMark)) = some j ∧
    cleanSpan raw = spanSlice raw ∧
    parseResponse p raw = some k ∧
    parseResponse p rawF = manualScan p (spanSlice rawF) := by
  refine ⟨?_, cleanSpan_fenced body, ?_, cleanSpan_unfenced raw hs0 hf hsuffix, ?_, ?_⟩
  · unfold parseResponse
    rw [pyStrip_eq_self_of_all (by decide)]
    simp
  · unfold parseResponse
    rw [pyStrip_fenced, if_neg (fenced_ne_nullSentinel body), cleanSpan_fenced, hb]
  · unfold parseResponse
    rw [hs0, if_neg hn, cleanSpan_unfenced raw hs0 hf hsuffix, hk]
  · unfold parseResponse
    rw [gs0, if_neg gn, cleanSpan_unfenced rawF gs0 gf gsuffix, gfail]

/-!
### Concrete inputs and witnesses
-/

/-- A feed message distinct from `m0`. -/
def m2 : Msg := { m0 with id := 2 }

/-- A row with an unparsable `message_id` cell. -/
def badRow : CsvRow := { blankRow with message_id := ['x'] }

/-- An empty collection state whose write-outcome list is empty. -/
def stW : HState := { rows := [], ids := ∅, written := [], outs := [] }

/-- A hybrid state that already knows id 1. -/
def stH1 : HState := { rows := [], ids := {1}, written := [], outs := [] }

/-- An incremental state that already knows id 1. -/
def stI1 : IState :=
  { rows := [], ids := {1}, written := [], events := [], procOuts := [], outs := [] }

/-- First hybrid run over the one-message feed and the empty store. -/
def hRun1 : HState := scrapeMessagesHybrid ['a'] c0 [m0] [] []

/-- Second hybrid run over the unchanged feed and the resulting store. -/
def hRun2 : HState := scrapeMessagesHybrid ['a'] c0 [m0] hRun1.rows []

/-- First incremental run over the one-message feed and the empty store. -/
def iRun1 : IState := scrapeMessagesIncremental ['a'] c0 [m0] [] [] []

/-- Second incremental run over the unchanged feed and the resulting store. -/
def iRun2 : IState := scrapeMessagesIncremental ['a'] c0 [m0] iRun1.rows [] []

theorem claim1_witness :
    (storeIdsL ([] : List CsvRow)).Nodup ∧ qualifies ['a'] m0 = true ∧
    m0.id ∈ stH1.ids ∧ m0.id ∈ stI1.ids ∧
    (hybridStep ['a'] c0 stH1 m0 = stH1 ∧
     incrementalStep ['a'] c0 stI1 m0 = stI1 ∧
     (storeIdsL hRun1.rows).Nodup ∧
     hRun2.written = [] ∧ hRun2.rows = hRun1.rows ∧
     (storeIdsL iRun1.rows).Nodup ∧
     iRun2.written = [] ∧ iRun2.rows = iRun1.rows) :=
  ⟨by decide, by decide, by decide, by decide,
    claim1_at_most_once_idempotent ['a'] c0 [m0] [] [] [] stH1 stI1 m0 m0
      (by decide) (by decide) (by decide) (by decide) (by decide)⟩

theorem claim4_witness :
    mkMessageData c0 m0 ∈ hRun1.written ∧ validState (mkMessageData c0 m0) :=
  ⟨by decide,
    (claim4_write_states ['a'] c0 [m0] [] [] [] [] [] (mkMessageData c0 m0)).1 (by decide)⟩

/-- C6 is false on the code: on an update miss (the store holds only the
row with id 1, the update carries id 2) the store is left unchanged but the
emitted log is exactly one debug-level `Updated message 2 in CSV` record —
no error-level record is logged, contrary to the claim. -/
theorem claim6_counterexample :
    failedRow.message_id ≠ pyStrOf (mkMessageData c0 m2).message_id ∧
    (updateMessageInCsvRun [failedRow] (mkMessageData c0 m2)).1 = [failedRow] ∧
    (updateMessageInCsvRun [failedRow] (mkMessageData c0 m2)).2
      = [(LogLevel.debugL, "Updated message 2 in CSV".toList)] ∧
    (updateMessageInCsvRun [failedRow] (mkMessageData c0 m2)).2.filter isErrorLog
      = [] := by
  decide

theorem claim6_amended_witness :
    (∀ r ∈ [failedRow], r.message_id ≠ pyStrOf (mkMessageData c0 m2).message_id) ∧
    ((updateMessageInCsvRun [failedRow] (mkMessageData c0 m2)).1 = [failedRow] ∧
     (updateMessageInCsvRun [failedRow] (mkMessageData c0 m2)).2
       = [(LogLevel.debugL,
           "Updated message ".toList
             ++ (pyStrOf (mkMessageData c0 m2).message_id ++ " in CSV".toList))] ∧
     (updateMessageInCsvRun [failedRow] (mkMessageData c0 m2)).2.filter isErrorLog
       = []) :=
  ⟨by decide, claim6_amended_update_miss [failedRow] (mkMessageData c0 m2) (by decide)⟩

/-- The JSON-parser stub used by the parser witness: recognizes exactly two
payload spans. -/
def pTab : List Char → Option Nat := fun s =>
  if s = [obr, 'b', cbr] then some 1
  else if s = [obr, 'a', cbr] then some 2
  else none

/-- The fenced payload body of the parser witness. -/
def body0 : List Char := [obr, 'b', cbr]

/-- A response with leading prose before the object. -/
def raw0 : List Char := ['x', ' ', obr, 'a', cbr]

/-- A response whose first-to-last-brace span fails to parse but whose
brace-balanced line scan succeeds. -/
def rawF0 : List Char := [obr, 'a', cbr, '\n', cbr]

theorem claim7_witness :
    pTab (spanSlice (pyStrip body0)) = some 1 ∧
    pyStrip raw0 = raw0 ∧ raw0 ≠ nullSentinel ∧
    hasPre fenceMark raw0 = false ∧ hasSuf fenceMark raw0 = false ∧
    pTab (spanSlice raw0) = some 2 ∧
    pyStrip rawF0 = rawF0 ∧ rawF0 ≠ nullSentinel ∧
    hasPre fenceMark rawF0 = false ∧ hasSuf fenceMark rawF0 = false ∧
    pTab (spanSlice rawF0) = none ∧
    (parseResponse pTab nullSentinel = none ∧
     cleanSpan (fenceJsonMark ++ '\n' :: (body0 ++ '\n' :: fenceMark))
       = spanSlice (pyStrip body0) ∧
     parseResponse pTab (fenceJsonMark ++ '\n' :: (body0 ++ '\n' :: fenceMark))
       = some 1 ∧
     cleanSpan raw0 = spanSlice raw0 ∧
     parseResponse pTab raw0 = some 2 ∧
     parseResponse pTab rawF0 = manualScan pTab (spanSlice rawF0)) :=
  ⟨by decide, by decide, by decide, by decide, by decide, by decide, by decide,
   by decide, by decide, by decide, by decide,
   claim7_parser_robustness pTab pTab body0 raw0 rawF0 1 2
     (by decide) (by decide) (by decide) (by decide) (by decide) (by decide)
     (by decide) (by decide) (by decide) (by decide) (by decide)⟩

theorem claim8_witness :
    SemReach 1 2 (List.replicate 2 TPc.waiting) ∧
    inflightCount (List.replicate 2 TPc.waiting) ≤ 1 :=
  ⟨Relation.ReflTransGen.refl,
    claim8_concurrency_bound 1 2 _ Relation.ReflTransGen.refl⟩

theorem claim9_witness :
    qualifies ['a'] m0 = true ∧ m0.id ∉ (loadExistingCsv []).1 ∧
    (appendToCsv WOutcome.ok [] (mkMessageData c0 m0)
       = [] ++ [toCsvRow (mkMessageData c0 m0)] ∧
     appendToCsv WOutcome.ioError [] (mkMessageData c0 m0) = [] ∧
     (scrapeMessagesHybrid ['a'] c0 [m0, m0] [] [WOutcome.ioError]).rows = [] ∧
     m0.id ∈ (scrapeMessagesHybrid ['a'] c0 [m0, m0] [] [WOutcome.ioError]).ids ∧
     (scrapeMessagesHybrid ['a'] c0 [m0, m0] [] [WOutcome.ioError]).written
       = [mkMessageData c0 m0]) :=
  ⟨by decide, by decide,
    claim9_append_failure_swallowed [] (mkMessageData c0 m0) ['a'] c0 m0
      (by decide) (by decide)⟩

theorem claim10_witness :
    (badRow.message_id = [] ∨ pyInt badRow.message_id = Option.none) ∧
    qualifies ['a'] m0 = true ∧ m0.id ∉ stW.ids ∧ stW.outs = [] ∧
    (loadExistingCsv ([] ++ badRow :: []) = loadExistingCsv ([] ++ []) ∧
     (hybridStep ['a'] c0 stW m0).rows = stW.rows ++ [toCsvRow (mkMessageData c0 m0)] ∧
     (hybridStep ['a'] c0 stW m0).ids = insert m0.id stW.ids) :=
  ⟨Or.inr (by decide), by decide, by decide, rfl,
    claim10_bad_id_rows_invisible [] [] badRow ['a'] c0 stW m0
      (Or.inr (by decide)) (by decide) (by decide) rfl⟩

end TrackUA
